import Mathlib

/-!
Verification development for the Color Variation Generator repository.

The repository ships several variants of the engine (`main_beta.py`,
`main_v2.py`, `main_v3.py`, `main_v4.py`, `main_v5.py`).  The definitions
below are shallow embeddings of the relevant functions:

* 8-bit channel samples are modelled as `Fin 256`;
* Python/NumPy floating-point arithmetic is modelled by exact rational
  arithmetic (`ℚ`), with the NumPy `uint8` casts made explicit;
* the file system and the GUI progress bar are modelled as explicit
  parameters (an existence predicate, a list of reported values);
* the cross-thread cancellation flag is modelled as a Boolean-valued
  function of the number of flag reads performed so far.
-/

namespace ColorVar

/-- An 8-bit channel sample. -/
abbrev U8 := Fin 256

/-- One RGBA pixel (8-bit channels), the row-major sample unit of a
4-channel `PixelBuffer`. -/
structure RGBA where
  r : U8
  g : U8
  b : U8
  a : U8
  deriving DecidableEq, Repr

/-!
## Sweep enumeration

`sweep_v5` embeds the loop nest of `ColorVariationApp._generate_variations_thread`
(`main_v5.py` lines 771-807): the outer loop ranges over hue indices, the
inner loop over saturation indices.  `sweep_v4` embeds the loop nest of
`ImageProcessor.process_image` (`main_v4.py` lines 167-198): there the
outer loop ranges over saturation indices and the inner loop over hue
indices.  Each list records, in emission order, the `(hue index, saturation
index)` pair of the emitted variation.
-/

/-- Emission order of the `main_v5.py` sweep: hue-major, saturation-minor. -/
def sweep_v5 (hue_count sat_count : Nat) : List (Nat × Nat) :=
  (List.range hue_count).flatMap fun h_idx =>
    (List.range sat_count).map fun s_idx => (h_idx, s_idx)

/-- Emission order of the `main_v4.py` sweep: saturation-major, hue-minor. -/
def sweep_v4 (hue_count sat_count : Nat) : List (Nat × Nat) :=
  (List.range sat_count).flatMap fun sat_idx =>
    (List.range hue_count).map fun hue_idx => (hue_idx, sat_idx)

/-- Saturation factor of the j-th saturation step in `main_v4.py`
(`sat_factor = (sat_idx + 1) / self.sat_count`). -/
def sat_factor_v4 (sat_count j : Nat) : ℚ :=
  ((j : ℚ) + 1) / (sat_count : ℚ)

/-- Saturation factor of the j-th saturation step in `main_v5.py`
(`saturation = (s_idx + 1) * (1 / sat_count)`). -/
def sat_factor_v5 (sat_count j : Nat) : ℚ :=
  ((j : ℚ) + 1) * (1 / (sat_count : ℚ))

/-!
## Rational models of the NumPy casts

`clip255` is `np.clip(x, 0, 255)`; `u8_trunc` is the subsequent
`astype(np.uint8)` cast, which truncates toward zero (its argument is
already clipped to `[0, 255]`, so truncation is `⌊·⌋`); `qmod` is the
Python float `%` for a positive right operand.
-/

/-- `np.clip(x, 0, 255)`. -/
def clip255 (q : ℚ) : ℚ := max 0 (min 255 q)

/-- `astype(np.uint8)` applied to a value already in `[0, 255]`:
truncation toward zero, reduced mod 256. -/
def u8_trunc (q : ℚ) : U8 :=
  ⟨⌊q⌋.toNat % 256, Nat.mod_lt _ (by norm_num)⟩

/-- Python float `a % b` for `b > 0`. -/
def qmod (a b : ℚ) : ℚ := a - b * (⌊a / b⌋ : ℚ)

/-!
## `adjust_image_rgb` (`main_v5.py` lines 182-246)

A PIL image is either 3-channel RGB or 4-channel RGBA.  `adjust_image_rgb`
validates the three strengths, converts the image to RGBA (PIL
`convert('RGBA')` gives every pixel an opaque alpha of 255), adjusts each
RGB channel in float32 arithmetic, clips to `[0, 255]`, casts back to
`uint8` and re-attaches the untouched alpha channel.
-/

/-- A PIL image buffer: `mode` is either RGB (3 channels) or RGBA. -/
inductive PilImage where
  | rgb (pixels : List (U8 × U8 × U8))
  | rgba (pixels : List RGBA)
  deriving DecidableEq, Repr

/-- `image.convert('RGBA')`: an RGB image gains an opaque alpha of 255 per
pixel; an RGBA image is unchanged. -/
def PilImage.toRGBA : PilImage → List RGBA
  | .rgb ps => ps.map fun t => ⟨t.1, t.2.1, t.2.2, 255⟩
  | .rgba ps => ps

/-- Whether the image is in RGBA mode (`image.mode == 'RGBA'`). -/
def PilImage.isRgba : PilImage → Bool
  | .rgb _ => false
  | .rgba _ => true

/-- The two adjustment modes accepted by `adjust_image_rgb`. -/
inductive AdjustMode where
  | additive
  | multiplicative
  deriving DecidableEq, Repr

/-- Per-channel adjustment of `adjust_image_rgb`: additive mode adds
`(strength - 1.0) * 255.0`, multiplicative mode multiplies by `strength`;
the result is clipped to `[0, 255]` and cast back to `uint8`. -/
def adjust_channel (mode : AdjustMode) (strength : ℚ) (c : U8) : U8 :=
  let v : ℚ := (c.val : ℚ)
  let v : ℚ :=
    match mode with
    | .additive => v + (strength - 1) * 255
    | .multiplicative => v * strength
  u8_trunc (clip255 v)

/-- `adjust_image_rgb` (`main_v5.py`): strength validation, RGBA
conversion, per-channel adjustment, alpha re-attachment. -/
def adjust_image_rgb (image : PilImage) (r_strength g_strength b_strength : ℚ)
    (mode : AdjustMode) : Except String PilImage :=
  if ¬ (0 ≤ r_strength ∧ r_strength ≤ 2) then
    .error "Red strength must be between 0.0 and 2.0"
  else if ¬ (0 ≤ g_strength ∧ g_strength ≤ 2) then
    .error "Green strength must be between 0.0 and 2.0"
  else if ¬ (0 ≤ b_strength ∧ b_strength ≤ 2) then
    .error "Blue strength must be between 0.0 and 2.0"
  else
    let ps := image.toRGBA
    .ok (.rgba (ps.map fun p =>
      ⟨adjust_channel mode r_strength p.r,
       adjust_channel mode g_strength p.g,
       adjust_channel mode b_strength p.b,
       p.a⟩))

/-!
## `generate_combined_variations` (`main_v5.py` lines 103-180)

The function validates the two counts (raising `ValueError` when either is
below 1) and then enumerates the hue-major sweep.  The embedding records
the `(hue index, saturation index)` pairs in emission order; the
`ValueError` becomes the `Except.error` branch.
-/

/-- Validation and enumeration skeleton of `generate_combined_variations`. -/
def generate_combined_variations (hue_variations sat_variations : Int) :
    Except String (List (Nat × Nat)) :=
  if hue_variations < 1 ∨ sat_variations < 1 then
    .error "Number of variations must be at least 1"
  else
    .ok (sweep_v5 hue_variations.toNat sat_variations.toNat)

/-!
## Alpha-preserving variation assembly

`make_variation_rgba` embeds the RGBA branch of the `main_v5.py` sweep body
(lines 780-789): the RGB slice is transformed (by the cv2 HSV round-trip,
an external pointwise collaborator, abstracted as `transform`) and the
source alpha channel is copied into channel 3 of the result.

`process_rgba_image` embeds `ColorVariationGenerator.process_rgba_image`
(`main_v3.py` lines 856-886): a transparency mask selects which pixels
receive the transformed RGB, and the alpha channel is merged back
unchanged either way.
-/

/-- RGBA branch of the `main_v5.py` sweep body: transform the RGB slice,
copy the source alpha byte into the result. -/
def make_variation_rgba (transform : U8 × U8 × U8 → U8 × U8 × U8)
    (img : List RGBA) : List RGBA :=
  img.map fun p =>
    let c := transform (p.r, p.g, p.b)
    ⟨c.1, c.2.1, c.2.2, p.a⟩

/-- Transparency mask of `process_rgba_image` (`main_v3.py`): mode 0
processes all pixels, mode 1 only `alpha < 255`, any other mode only
`alpha == 255`. -/
def process_mask (transparency_mode : Nat) (alpha : U8) : Bool :=
  if transparency_mode = 0 then true
  else if transparency_mode = 1 then decide (alpha.val < 255)
  else decide (alpha.val = 255)

/-- `process_rgba_image` (`main_v3.py`): transformed RGB where the mask
holds, original RGB elsewhere, alpha always copied. -/
def process_rgba_image (transform : U8 × U8 × U8 → U8 × U8 × U8)
    (transparency_mode : Nat) (img : List RGBA) : List RGBA :=
  img.map fun p =>
    if process_mask transparency_mode p.a then
      let c := transform (p.r, p.g, p.b)
      ⟨c.1, c.2.1, c.2.2, p.a⟩
    else p

/-!
## `ImageProcessor._apply_color_variation` (`main_v4.py` lines 210-330)

The CLI variant implements the HSV round-trip in pure Python, per pixel.
`variation_mask` embeds the mask construction (lines 230-254):
the pixel is processed only if it passes the grayscale gate
(`skip_gray` excludes `max - min == 0`; a positive threshold excludes
`max - min < threshold`) and, when the buffer has alpha, the
transparency gate.  `apply_color_variation_pixel` embeds the per-pixel
body of the double loop (lines 258-328); an excluded pixel is left
untouched in the copied buffer.
-/

/-- Configuration slice of `ImageProcessor` used by `_apply_color_variation`. -/
structure VariationConfig where
  skip_gray : Bool
  skip_near_gray_threshold : Nat
  transparent_only : Bool
  opaque_only : Bool
  r_scale : ℚ
  g_scale : ℚ
  b_scale : ℚ
  deriving Repr

/-- `max(R,G,B) - min(R,G,B)` of a pixel (`diff` in the mask code). -/
def gray_diff (p : RGBA) : Nat :=
  max p.r.val (max p.g.val p.b.val) - min p.r.val (min p.g.val p.b.val)

/-- The per-pixel processing mask of `_apply_color_variation`. -/
def variation_mask (cfg : VariationConfig) (has_alpha : Bool) (p : RGBA) : Bool :=
  let mask := true
  let mask :=
    if cfg.skip_gray || decide (cfg.skip_near_gray_threshold > 0) then
      let diff := gray_diff p
      let mask := if cfg.skip_gray then mask && decide (diff > 0) else mask
      if cfg.skip_near_gray_threshold > 0 then
        mask && decide (diff ≥ cfg.skip_near_gray_threshold)
      else mask
    else mask
  if has_alpha then
    if cfg.transparent_only then mask && decide (p.a.val < 255)
    else if cfg.opaque_only then mask && decide (p.a.val = 255)
    else mask
  else mask

/-- Per-pixel body of `_apply_color_variation`: RGB → HSV, hue rotation,
saturation scaling (clamped to `[0,1]`), HSV → RGB, per-channel scaling,
clamping to `[0,255]`, `uint8` write-back.  Pixels failing the mask are
copied unchanged (the loop body is skipped on the copied buffer). -/
def apply_color_variation_pixel (cfg : VariationConfig) (has_alpha : Bool)
    (sat_factor hue_rotation : ℚ) (p : RGBA) : RGBA :=
  if variation_mask cfg has_alpha p then
    let r : ℚ := (p.r.val : ℚ) / 255
    let g : ℚ := (p.g.val : ℚ) / 255
    let b : ℚ := (p.b.val : ℚ) / 255
    let cmax : ℚ := max r (max g b)
    let cmin : ℚ := min r (min g b)
    let delta : ℚ := cmax - cmin
    let h : ℚ :=
      if delta = 0 then 0
      else if cmax = r then 60 * qmod ((g - b) / delta) 6
      else if cmax = g then 60 * ((b - r) / delta + 2)
      else 60 * ((r - g) / delta + 4)
    let h : ℚ := qmod (h + hue_rotation) 360
    let s : ℚ := if cmax = 0 then 0 else delta / cmax
    let s : ℚ := s * sat_factor
    let s : ℚ := max 0 (min 1 s)
    let v : ℚ := cmax
    let c : ℚ := v * s
    let x : ℚ := c * (1 - |qmod (h / 60) 2 - 1|)
    let m : ℚ := v - c
    let rgb1 : ℚ × ℚ × ℚ :=
      if 0 ≤ h ∧ h < 60 then (c, x, 0)
      else if 60 ≤ h ∧ h < 120 then (x, c, 0)
      else if 120 ≤ h ∧ h < 180 then (0, c, x)
      else if 180 ≤ h ∧ h < 240 then (0, x, c)
      else if 240 ≤ h ∧ h < 300 then (x, 0, c)
      else (c, 0, x)
    let r2 : ℚ := (rgb1.1 + m) * 255 * cfg.r_scale
    let g2 : ℚ := (rgb1.2.1 + m) * 255 * cfg.g_scale
    let b2 : ℚ := (rgb1.2.2 + m) * 255 * cfg.b_scale
    ⟨u8_trunc (clip255 r2), u8_trunc (clip255 g2), u8_trunc (clip255 b2), p.a⟩
  else p

/-- `_apply_color_variation` over the whole buffer. -/
def apply_color_variation (cfg : VariationConfig) (has_alpha : Bool)
    (sat_factor hue_rotation : ℚ) (img : List RGBA) : List RGBA :=
  img.map (apply_color_variation_pixel cfg has_alpha sat_factor hue_rotation)

/-- The ExactGray mask policy of the CLI: `--skip-gray` set, near-gray
threshold 0, no transparency gating; channel scales are arbitrary. -/
def exact_gray_config (r_scale g_scale b_scale : ℚ) : VariationConfig :=
  ⟨true, 0, false, false, r_scale, g_scale, b_scale⟩

/-!
## `ColorVariationGenerator.process_image` (`main_v3.py` lines 670-831)

### Recoverable defaults (lines 676-685)

A non-positive saturation count is replaced by 3, a non-positive hue count
by 10; each substitution logs a warning.

### The cancellation-aware double loop (lines 750-821)

`self.is_processing` is a Boolean flag set to `False` by the caller to
request cancellation.  It is read at the start of every saturation-level
iteration, at the start of every hue-level iteration, and once more after
the loops to choose between the success and the cancelled report.  The
embedding indexes reads of the flag by their ordinal: `flag t` is the
value returned by the `t`-th read.  One variation file is written per
completed hue-level iteration; files are numbered `1, 2, …` by
`variations_created` and are never removed.
-/

/-- `saturation_levels` after the recoverable-default check. -/
def resolve_saturation_levels (n : Int) : Int := if n ≤ 0 then 3 else n

/-- `hue_variations` after the recoverable-default check. -/
def resolve_hue_variations (n : Int) : Int := if n ≤ 0 then 10 else n

/-- Whether the saturation-default substitution logs a warning. -/
def saturation_default_warned (n : Int) : Bool := n ≤ 0

/-- Whether the hue-default substitution logs a warning. -/
def hue_default_warned (n : Int) : Bool := n ≤ 0

/-- Loop state of `process_image`: variations created so far, number of
flag reads performed so far, variation files written so far (in order). -/
structure RunState where
  created : Nat
  checks : Nat
  files : List Nat
  deriving DecidableEq, Repr

/-- Outcome report of a run. -/
inductive RunStatus where
  | completed
  | cancelled
  deriving DecidableEq, Repr

/-- Result of a `process_image` run. -/
structure RunResult where
  files : List Nat
  created : Nat
  checks : Nat
  status : RunStatus
  deriving DecidableEq, Repr

/-- The hue-level loop (`for hue_idx in range(hue_variations)`): each
iteration first reads the cancellation flag and breaks if it is unset;
otherwise the variation is processed and its file written in full. -/
def hue_loop (flag : Nat → Bool) : Nat → RunState → RunState
  | 0, st => st
  | n + 1, st =>
    if flag st.checks then
      hue_loop flag n
        { created := st.created + 1
          checks := st.checks + 1
          files := st.files ++ [st.created + 1] }
    else
      { st with checks := st.checks + 1 }

/-- The saturation-level loop (`for sat_idx in range(saturation_levels)`):
each iteration first reads the cancellation flag and breaks if it is
unset; a break of the inner loop returns control here, and the next
saturation iteration re-reads the flag. -/
def sat_loop (flag : Nat → Bool) (hue_variations : Nat) : Nat → RunState → RunState
  | 0, st => st
  | n + 1, st =>
    if flag st.checks then
      sat_loop flag hue_variations n
        (hue_loop flag hue_variations { st with checks := st.checks + 1 })
    else
      { st with checks := st.checks + 1 }

/-- A full `process_image` run: the double loop followed by the final flag
read that selects the success or the cancellation report. -/
def process_image_run (saturation_levels hue_variations : Nat)
    (flag : Nat → Bool) : RunResult :=
  let st := sat_loop flag hue_variations saturation_levels ⟨0, 0, []⟩
  { files := st.files
    created := st.created
    checks := st.checks + 1
    status := if flag st.checks then .completed else .cancelled }

/-- An example cancellation schedule: the first three flag reads return
`True`, every later read returns `False` (the caller pressed Cancel while
the second variation was in flight). -/
def cancel_after_three : Nat → Bool := fun t => decide (t < 3)

/-!
## Progress sequences (claim C3)

`progress_v5` lists, in order, every value passed to
`self.progress_bar.set` by `_generate_variations_thread` in `main_v5.py`
on a successful run of `total` variations: the initial reset to 0, the
per-variation updates `generated_count / total_variations`, the fixed
`0.8` before saving, and the final `1.0`.

`progress_beta` does the same for the `main_beta.py` pipeline: the
generation loop reports `generated_count / (total * 2)`, the save loop
reports `(i + 1) / (total * 2) + 0.5`, and `_log_save_success` reports a
final `1.0`.
-/

/-- Progress values reported by `main_v5.py` on a successful run. -/
def progress_v5 (total : Nat) : List ℚ :=
  0 :: (((List.range total).map fun k : Nat => ((k : ℚ) + 1) / (total : ℚ)) ++ [4/5, 1])

/-- Progress values reported by `main_beta.py` on a successful run. -/
def progress_beta (total : Nat) : List ℚ :=
  ((List.range total).map fun k : Nat => ((k : ℚ) + 1) / (2 * (total : ℚ))) ++
    (((List.range total).map fun i : Nat => ((i : ℚ) + 1) / (2 * (total : ℚ)) + 1/2) ++ [1])

/-!
## `get_unique_folder_path` (`main_v5.py` lines 867-884, `main_beta.py`
lines 689-706)

The file system is abstracted as the predicate `os_path_exists`.  The
Python `while True` loop is given explicit fuel; `none` means the fuel ran
out (the Python loop would still be running).
-/

/-- The `while True` loop: try `base_path_counter`, `base_path_(counter+1)`, …. -/
def unique_folder_loop (os_path_exists : String → Bool) (base_path : String) :
    Nat → Nat → Option String
  | 0, _ => none
  | fuel + 1, counter =>
    let new_path := base_path ++ "_" ++ toString counter
    if os_path_exists new_path then
      unique_folder_loop os_path_exists base_path fuel (counter + 1)
    else
      some new_path

/-- `get_unique_folder_path`: the base path itself when it does not exist,
otherwise the first `base_path_k` (`k = 1, 2, …`) that does not exist. -/
def get_unique_folder_path (os_path_exists : String → Bool) (base_path : String)
    (fuel : Nat) : Option String :=
  if os_path_exists base_path then
    unique_folder_loop os_path_exists base_path fuel 1
  else
    some base_path

/-- A concrete file system for the specification's example: exactly `P`
and `P_1` exist. -/
def example_fs : String → Bool := fun s => decide (s = "P" ∨ s = "P_1")

/-!
# Theorems

Helper lemmas first, then one theorem per claim (with counterexamples and
witnesses where required).
-/

lemma sweep_v5_eq (Nh Ns : Nat) :
    sweep_v5 Nh Ns = (List.range (Nh * Ns)).map fun k => (k / Ns, k % Ns) := by
  induction Nh with
  | zero => simp [sweep_v5]
  | succ n ih =>
    rw [sweep_v5, List.range_succ, List.flatMap_append, ← sweep_v5, ih,
      Nat.succ_mul, List.range_add, List.map_append, List.map_map]
    congr 1
    · simp only [List.flatMap_cons, List.flatMap_nil, List.append_nil]
      refine (List.map_congr_left ?_).symm
      intro j hj
      rw [List.mem_range] at hj
      have hNs : 0 < Ns := by omega
      simp only [Function.comp]
      have h1 : (n * Ns + j) / Ns = n := by
        rw [Nat.mul_comm n Ns, Nat.mul_add_div hNs, Nat.div_eq_of_lt hj, Nat.add_zero]
      have h2 : (n * Ns + j) % Ns = j := by
        rw [Nat.mul_comm n Ns, Nat.mul_add_mod, Nat.mod_eq_of_lt hj]
      rw [h1, h2]

lemma sweep_v4_eq (Nh Ns : Nat) :
    sweep_v4 Nh Ns = (List.range (Ns * Nh)).map fun k => (k % Nh, k / Nh) := by
  induction Ns with
  | zero => simp [sweep_v4]
  | succ n ih =>
    rw [sweep_v4, List.range_succ, List.flatMap_append, ← sweep_v4, ih,
      Nat.succ_mul, List.range_add, List.map_append, List.map_map]
    congr 1
    simp only [List.flatMap_cons, List.flatMap_nil, List.append_nil]
    refine (List.map_congr_left ?_).symm
    intro i hi
    rw [List.mem_range] at hi
    have hNh : 0 < Nh := Nat.pos_of_ne_zero (by omega)
    simp only [Function.comp]
    have h1 : (n * Nh + i) % Nh = i := by
      rw [Nat.mul_comm n Nh, Nat.mul_add_mod, Nat.mod_eq_of_lt hi]
    have h2 : (n * Nh + i) / Nh = n := by
      rw [Nat.mul_comm n Nh, Nat.mul_add_div hNh, Nat.div_eq_of_lt hi, Nat.add_zero]
    rw [h1, h2]


/-- Claim C1, counterexample: the `main_v4.py` sweep does not emit in
hue-major, saturation-minor order.  With `N_h = 2`, `N_s = 3`, the claim
predicts that result 1 has hue index `1 / 3 = 0` and saturation index
`1 % 3 = 1`, but `process_image` emits `(hue 1, saturation 0)` there. -/
theorem c1_counterexample_sweep_v4_order :
    (sweep_v4 2 3)[1]? = some (1, 0) ∧
      ((1, 0) : Nat × Nat) ≠ (1 / 3, 1 % 3) := by
  decide

/-- Claim C1, amended: for `N_h, N_s ≥ 1` both sweeps produce exactly
`N_h * N_s` variations; the `main_v5.py` sweep is hue-major (its k-th
result has hue index `k / N_s` and saturation index `k % N_s`), while the
`main_v4.py` sweep is saturation-major (its k-th result has hue index
`k % N_h` and saturation index `k / N_h`). -/
theorem c1_sweep_order (Nh Ns : Nat) (_hh : 1 ≤ Nh) (_hs : 1 ≤ Ns) :
    (sweep_v5 Nh Ns).length = Nh * Ns ∧
    (sweep_v4 Nh Ns).length = Nh * Ns ∧
    (∀ k, k < Nh * Ns → (sweep_v5 Nh Ns)[k]? = some (k / Ns, k % Ns)) ∧
    (∀ k, k < Nh * Ns → (sweep_v4 Nh Ns)[k]? = some (k % Nh, k / Nh)) := by
  refine ⟨?_, ?_, ?_, ?_⟩
  · rw [sweep_v5_eq]; simp
  · rw [sweep_v4_eq]; simp [Nat.mul_comm]
  · intro k hk
    rw [sweep_v5_eq, List.getElem?_map, List.getElem?_range hk]
    rfl
  · intro k hk
    rw [sweep_v4_eq, List.getElem?_map,
      List.getElem?_range (show k < Ns * Nh from Nat.mul_comm Nh Ns ▸ hk)]
    rfl

/-- Witness for C1 at `N_h = 2`, `N_s = 3`. -/
theorem c1_sweep_order_witness :
    (sweep_v5 2 3).length = 2 * 3 ∧
    (sweep_v4 2 3).length = 2 * 3 ∧
    (∀ k, k < 2 * 3 → (sweep_v5 2 3)[k]? = some (k / 3, k % 3)) ∧
    (∀ k, k < 2 * 3 → (sweep_v4 2 3)[k]? = some (k % 2, k / 2)) :=
  c1_sweep_order 2 3 (by decide) (by decide)

/-- Claim C8: for `N_s ≥ 1` the saturation factor of the j-th step is
`(j+1)/N_s` in both implementations, the factors are strictly increasing
in `j`, and the final step's factor is exactly 1. -/
theorem c8_saturation_factor (Ns : Nat) (hs : 1 ≤ Ns) :
    (∀ j, sat_factor_v4 Ns j = ((j : ℚ) + 1) / (Ns : ℚ) ∧
      sat_factor_v5 Ns j = ((j : ℚ) + 1) / (Ns : ℚ)) ∧
    (∀ j k : Nat, j < k →
      sat_factor_v4 Ns j < sat_factor_v4 Ns k ∧
      sat_factor_v5 Ns j < sat_factor_v5 Ns k) ∧
    sat_factor_v4 Ns (Ns - 1) = 1 ∧ sat_factor_v5 Ns (Ns - 1) = 1 := by
  have hq : (0 : ℚ) < (Ns : ℚ) := by exact_mod_cast hs
  have heq : ∀ j : Nat, sat_factor_v5 Ns j = sat_factor_v4 Ns j := by
    intro j
    rw [sat_factor_v4, sat_factor_v5, mul_one_div]
  have hmono : ∀ j k : Nat, j < k → sat_factor_v4 Ns j < sat_factor_v4 Ns k := by
    intro j k hjk
    rw [sat_factor_v4, sat_factor_v4, div_lt_div_iff₀ hq hq]
    have hjk2 : ((j : ℚ) + 1) < ((k : ℚ) + 1) := by
      have : (j : ℚ) < (k : ℚ) := by exact_mod_cast hjk
      linarith
    exact mul_lt_mul_of_pos_right hjk2 hq
  have hlast : sat_factor_v4 Ns (Ns - 1) = 1 := by
    rw [sat_factor_v4, Nat.cast_sub hs, Nat.cast_one]
    have hne : (Ns : ℚ) ≠ 0 := ne_of_gt hq
    field_simp
  refine ⟨fun j => ⟨rfl, (heq j).trans rfl⟩,
    fun j k h => ⟨hmono j k h, by rw [heq j, heq k]; exact hmono j k h⟩,
    hlast, by rw [heq]; exact hlast⟩

/-- Witness for C8 at `N_s = 3`. -/
theorem c8_saturation_factor_witness :
    (∀ j, sat_factor_v4 3 j = ((j : ℚ) + 1) / (3 : ℚ) ∧
      sat_factor_v5 3 j = ((j : ℚ) + 1) / (3 : ℚ)) ∧
    (∀ j k : Nat, j < k →
      sat_factor_v4 3 j < sat_factor_v4 3 k ∧
      sat_factor_v5 3 j < sat_factor_v5 3 k) ∧
    sat_factor_v4 3 (3 - 1) = 1 ∧ sat_factor_v5 3 (3 - 1) = 1 := by
  have h := c8_saturation_factor 3 (by decide)
  exact_mod_cast h

/-- The `while True` search of `get_unique_folder_path` finds the first
free suffix: if every path `base_i` for `counter ≤ i < k` exists and
`base_k` does not, the loop started at `counter` returns `base_k`. -/
lemma unique_folder_loop_spec (ex : String → Bool) (base : String) :
    ∀ (fuel counter k : Nat), counter ≤ k → k < counter + fuel →
      (∀ i, counter ≤ i → i < k → ex (base ++ "_" ++ toString i) = true) →
      ex (base ++ "_" ++ toString k) = false →
      unique_folder_loop ex base fuel counter =
        some (base ++ "_" ++ toString k) := by
  intro fuel
  induction fuel with
  | zero => intro counter k h1 h2 _ _; omega
  | succ f ih =>
    intro counter k h1 h2 hbusy hfree
    simp only [unique_folder_loop]
    by_cases hck : counter = k
    · subst hck
      simp [hfree]
    · have hlt : counter < k := by omega
      rw [hbusy counter le_rfl hlt]
      simp only [if_true]
      exact ih (counter + 1) k (by omega) (by omega)
        (fun i hi hik => hbusy i (by omega) hik) hfree

/-- Claim C9: `get_unique_folder_path` returns the base path unchanged
when no entry exists at it; otherwise it returns the first `base_k`
(`k = 1, 2, …`) at which no entry exists. -/
theorem c9_unique_folder :
    (∀ (ex : String → Bool) (base : String) (fuel : Nat),
        ex base = false → get_unique_folder_path ex base fuel = some base) ∧
    (∀ (ex : String → Bool) (base : String) (fuel k : Nat),
        1 ≤ k → k ≤ fuel → ex base = true →
        (∀ i, 1 ≤ i → i < k → ex (base ++ "_" ++ toString i) = true) →
        ex (base ++ "_" ++ toString k) = false →
        get_unique_folder_path ex base fuel =
          some (base ++ "_" ++ toString k)) := by
  constructor
  · intro ex base fuel hb
    rw [get_unique_folder_path, hb]
    rfl
  · intro ex base fuel k hk hfuel hb hbusy hfree
    rw [get_unique_folder_path, hb, if_pos rfl]
    exact unique_folder_loop_spec ex base fuel 1 k hk (by omega) hbusy hfree

/-- Witness for C9: with exactly `P` and `P_1` existing,
`get_unique_folder_path` returns `P_2`. -/
theorem c9_unique_folder_witness :
    get_unique_folder_path example_fs "P" 2 = some "P_2" := by
  have h := c9_unique_folder.2 example_fs "P" 2 2 (by decide) (by decide)
    (by decide)
    (by
      intro i h1 h2
      have : i = 1 := by omega
      subst this
      decide)
    (by decide)
  simpa using h

/-- Running the hue-level loop with the flag always set performs `n` full
iterations: `n` variations are created and their files written in order,
and `n` flag reads occur. -/
lemma hue_loop_true (n : Nat) (st : RunState) :
    hue_loop (fun _ => true) n st =
      ⟨st.created + n, st.checks + n,
        st.files ++ List.range' (st.created + 1) n⟩ := by
  induction n generalizing st with
  | zero => simp [hue_loop]
  | succ m ih =>
    rw [hue_loop, if_pos rfl, ih]
    simp only [RunState.mk.injEq]
    refine ⟨by omega, by omega, ?_⟩
    rw [List.append_assoc, List.range'_succ]
    rfl

/-- Running the saturation-level loop with the flag always set performs
`n` full outer iterations of `hue_variations` variations each. -/
lemma sat_loop_true (h n : Nat) (st : RunState) :
    sat_loop (fun _ => true) h n st =
      ⟨st.created + n * h, st.checks + n * (h + 1),
        st.files ++ List.range' (st.created + 1) (n * h)⟩ := by
  induction n generalizing st with
  | zero => simp [sat_loop]
  | succ m ih =>
    rw [sat_loop, if_pos rfl, hue_loop_true, ih]
    simp only [RunState.mk.injEq]
    refine ⟨by ring, by ring, ?_⟩
    rw [List.append_assoc]
    congr 1
    have h1 : st.created + h + 1 = st.created + 1 + h := by omega
    rw [h1, List.range'_append_1]
    congr 1
    ring

/-- A run whose cancellation flag stays set completes normally with all
`saturation_levels * hue_variations` variation files written in order. -/
lemma process_image_run_true (s h : Nat) :
    process_image_run s h (fun _ => true) =
      ⟨List.range' 1 (s * h), s * h, s * (h + 1) + 1, .completed⟩ := by
  rw [process_image_run, sat_loop_true]
  simp

/-- The status of a run is decided by the final flag read. -/
lemma process_image_run_status (s h : Nat) (flag : Nat → Bool) :
    (process_image_run s h flag).status =
      if flag (sat_loop flag h s ⟨0, 0, []⟩).checks then RunStatus.completed
      else RunStatus.cancelled := rfl

/-- A run performs one flag read more than its loops. -/
lemma process_image_run_checks (s h : Nat) (flag : Nat → Bool) :
    (process_image_run s h flag).checks =
      (sat_loop flag h s ⟨0, 0, []⟩).checks + 1 := rfl

/-- Invariant of the hue-level loop: if the files written so far are
exactly `1, …, created`, this stays true after the loop — written files
are only appended, never removed, and each counted variation has its
file written in full. -/
lemma hue_loop_files (flag : Nat → Bool) (n : Nat) (st : RunState)
    (hinv : st.files = List.range' 1 st.created) :
    (hue_loop flag n st).files = List.range' 1 (hue_loop flag n st).created := by
  induction n generalizing st with
  | zero => simpa [hue_loop] using hinv
  | succ m ih =>
    rw [hue_loop]
    by_cases hf : flag st.checks
    · rw [if_pos hf]
      apply ih
      show st.files ++ [st.created + 1] = List.range' 1 (st.created + 1)
      rw [hinv, List.range'_1_concat, Nat.add_comm 1 st.created]
    · rw [if_neg hf]
      simpa using hinv

/-- The same invariant for the saturation-level loop. -/
lemma sat_loop_files (flag : Nat → Bool) (h n : Nat) (st : RunState)
    (hinv : st.files = List.range' 1 st.created) :
    (sat_loop flag h n st).files = List.range' 1 (sat_loop flag h n st).created := by
  induction n generalizing st with
  | zero => simpa [sat_loop] using hinv
  | succ m ih =>
    rw [sat_loop]
    by_cases hf : flag st.checks
    · rw [if_pos hf]
      exact ih _ (hue_loop_files flag h _ (by simpa using hinv))
    · rw [if_neg hf]
      simpa using hinv

/-- Claim C2, counterexample: `generate_combined_variations` in
`main_v5.py` does not substitute the default hue count for a non-positive
one — it raises `ValueError` and the generation aborts with an error. -/
theorem c2_counterexample_v5_rejects :
    generate_combined_variations 0 3 =
      .error "Number of variations must be at least 1" := rfl

/-- Claim C2, amended: the `main_v3.py` engine recovers from non-positive
counts by substituting the documented defaults (saturation 3, hue 10)
with a warning and then completes the run, producing the full resolved
grid; the `main_v5.py` engine instead rejects non-positive counts with a
`ValueError`. -/
theorem c2_default_substitution (saturation_levels hue_variations : Int)
    (_h : saturation_levels ≤ 0 ∨ hue_variations ≤ 0) :
    (saturation_levels ≤ 0 →
      resolve_saturation_levels saturation_levels = 3 ∧
      saturation_default_warned saturation_levels = true) ∧
    (hue_variations ≤ 0 →
      resolve_hue_variations hue_variations = 10 ∧
      hue_default_warned hue_variations = true) ∧
    1 ≤ resolve_saturation_levels saturation_levels ∧
    1 ≤ resolve_hue_variations hue_variations ∧
    (process_image_run (resolve_saturation_levels saturation_levels).toNat
      (resolve_hue_variations hue_variations).toNat (fun _ => true)).status =
      .completed ∧
    (process_image_run (resolve_saturation_levels saturation_levels).toNat
      (resolve_hue_variations hue_variations).toNat (fun _ => true)).created =
      (resolve_saturation_levels saturation_levels).toNat *
        (resolve_hue_variations hue_variations).toNat := by
  refine ⟨?_, ?_, ?_, ?_, ?_, ?_⟩
  · intro hsat
    rw [resolve_saturation_levels, if_pos hsat, saturation_default_warned]
    exact ⟨rfl, by simpa using hsat⟩
  · intro hhue
    rw [resolve_hue_variations, if_pos hhue, hue_default_warned]
    exact ⟨rfl, by simpa using hhue⟩
  · rw [resolve_saturation_levels]
    split <;> omega
  · rw [resolve_hue_variations]
    split <;> omega
  · rw [process_image_run_true]
  · rw [process_image_run_true]

/-- Witness for C2: scenario C, hue count 0 (saturation count 3). -/
theorem c2_default_substitution_witness :
    ((3 : Int) ≤ 0 →
      resolve_saturation_levels 3 = 3 ∧
      saturation_default_warned 3 = true) ∧
    ((0 : Int) ≤ 0 →
      resolve_hue_variations 0 = 10 ∧
      hue_default_warned 0 = true) ∧
    1 ≤ resolve_saturation_levels 3 ∧
    1 ≤ resolve_hue_variations 0 ∧
    (process_image_run (resolve_saturation_levels 3).toNat
      (resolve_hue_variations 0).toNat (fun _ => true)).status = .completed ∧
    (process_image_run (resolve_saturation_levels 3).toNat
      (resolve_hue_variations 0).toNat (fun _ => true)).created =
      (resolve_saturation_levels 3).toNat * (resolve_hue_variations 0).toNat :=
  c2_default_substitution 3 0 (Or.inr (by decide))

/-- Claim C6: cancellation is cooperative.  For any schedule of flag
reads that never flips back from cancelled to running: the files on disk
are always exactly the fully-written variations `1, …, created` (an
in-flight variation completes, nothing is rolled back); the run reports
cancelled exactly when some flag read observed the cancellation (never a
failure status); and if the flag is never set the run completes with the
full grid. -/
theorem c6_cooperative_cancellation (saturation_levels hue_variations : Nat)
    (flag : Nat → Bool)
    (hmono : ∀ t u : Nat, t ≤ u → flag u = true → flag t = true) :
    (process_image_run saturation_levels hue_variations flag).files =
      List.range' 1 (process_image_run saturation_levels hue_variations flag).created ∧
    ((process_image_run saturation_levels hue_variations flag).status = .cancelled ↔
      ∃ t, t < (process_image_run saturation_levels hue_variations flag).checks ∧
        flag t = false) ∧
    ((∀ t, flag t = true) →
      (process_image_run saturation_levels hue_variations flag).status = .completed ∧
      (process_image_run saturation_levels hue_variations flag).created =
        saturation_levels * hue_variations) := by
  refine ⟨?_, ?_, ?_⟩
  · exact sat_loop_files flag hue_variations saturation_levels ⟨0, 0, []⟩ rfl
  · rw [process_image_run_status, process_image_run_checks]
    by_cases hf :
        flag (sat_loop flag hue_variations saturation_levels ⟨0, 0, []⟩).checks
    · rw [if_pos hf]
      constructor
      · intro hcon
        cases hcon
      · rintro ⟨t, ht, hfalse⟩
        have hle : t ≤
            (sat_loop flag hue_variations saturation_levels ⟨0, 0, []⟩).checks := by
          omega
        rw [hmono t _ hle hf] at hfalse
        cases hfalse
    · rw [if_neg hf]
      refine ⟨fun _ =>
        ⟨(sat_loop flag hue_variations saturation_levels ⟨0, 0, []⟩).checks,
          by omega, ?_⟩, fun _ => rfl⟩
      simpa using hf
  · intro hall
    have hfun : flag = fun _ => true := funext fun t => hall t
    rw [hfun, process_image_run_true]
    exact ⟨rfl, rfl⟩

/-- Witness for C6: scenario D with a 3-by-4 grid and a flag that is set
after the third read — exactly 2 variation files exist and the run
reports cancelled, not failed. -/
theorem c6_cooperative_cancellation_witness :
    ((process_image_run 3 4 cancel_after_three).files =
      List.range' 1 (process_image_run 3 4 cancel_after_three).created ∧
    ((process_image_run 3 4 cancel_after_three).status = .cancelled ↔
      ∃ t, t < (process_image_run 3 4 cancel_after_three).checks ∧
        cancel_after_three t = false) ∧
    ((∀ t, cancel_after_three t = true) →
      (process_image_run 3 4 cancel_after_three).status = .completed ∧
      (process_image_run 3 4 cancel_after_three).created = 3 * 4)) ∧
    (process_image_run 3 4 cancel_after_three).files = [1, 2] ∧
    (process_image_run 3 4 cancel_after_three).status = .cancelled :=
  ⟨c6_cooperative_cancellation 3 4 cancel_after_three
      (by
        intro t u htu hu
        rw [cancel_after_three] at *
        simp only [decide_eq_true_eq] at hu ⊢
        omega),
    by decide, by decide⟩

/-- Every element of the ramp `(k+1)/M`, `k < M`, is at most 1. -/
lemma one_div_range_le_one (M : Nat) (x : ℚ)
    (hx : x ∈ (List.range M).map fun k : Nat => ((k : ℚ) + 1) / (M : ℚ)) : x ≤ 1 := by
  rw [List.mem_map] at hx
  obtain ⟨k, hk, rfl⟩ := hx
  rw [List.mem_range] at hk
  have hM : (0 : ℚ) < (M : ℚ) := by
    have : 0 < M := by omega
    exact_mod_cast this
  rw [div_le_one hM]
  have : k + 1 ≤ M := by omega
  exact_mod_cast this

/-- The ramp `(k+1)/M` is non-decreasing in `k`. -/
lemma pairwise_one_div_range (M : Nat) :
    List.Pairwise (· ≤ ·)
      ((List.range M).map fun k : Nat => ((k : ℚ) + 1) / (M : ℚ)) := by
  refine (List.pairwise_lt_range M).map _ ?_
  intro a b hab
  rcases Nat.eq_zero_or_pos M with hM | hM
  · subst hM
    norm_num
  · have hMq : (0 : ℚ) < (M : ℚ) := by exact_mod_cast hM
    have hab2 : (a : ℚ) ≤ (b : ℚ) := by exact_mod_cast hab.le
    gcongr

/-- The ramp `(k+1)/M`, `k < M`, hits the value 1 exactly once (at its
last element). -/
lemma count_one_div_range (M : Nat) (hM : 1 ≤ M) :
    List.count (1 : ℚ)
      ((List.range M).map fun k : Nat => ((k : ℚ) + 1) / (M : ℚ)) = 1 := by
  have hMq : (0 : ℚ) < (M : ℚ) := by exact_mod_cast hM
  have hsplit : M = (M - 1) + 1 := by omega
  nth_rewrite 2 [hsplit]
  rw [List.range_succ, List.map_append, List.count_append]
  have hz : List.count (1 : ℚ)
      ((List.range (M - 1)).map fun k : Nat => ((k : ℚ) + 1) / (M : ℚ)) = 0 := by
    rw [List.count_eq_zero]
    intro hmem
    rw [List.mem_map] at hmem
    obtain ⟨k, hk, hfk⟩ := hmem
    rw [List.mem_range] at hk
    rw [div_eq_one_iff_eq (ne_of_gt hMq)] at hfk
    have : k + 1 = M := by exact_mod_cast hfk
    omega
  have ho : List.count (1 : ℚ)
      ([M - 1].map fun k : Nat => ((k : ℚ) + 1) / (M : ℚ)) = 1 := by
    have hcast : ((M - 1 : Nat) : ℚ) = (M : ℚ) - 1 := by
      rw [Nat.cast_sub hM, Nat.cast_one]
    simp only [List.map_cons, List.map_nil, hcast]
    have : (M : ℚ) - 1 + 1 = (M : ℚ) := by ring
    rw [this, div_self (ne_of_gt hMq)]
    simp
  rw [hz, ho]

/-- The two reporting phases of `main_beta.py` concatenate into a single
ramp `(k+1)/(2N)`, `k < 2N`, followed by the final `1.0`. -/
lemma progress_beta_eq (N : Nat) (hN : 1 ≤ N) :
    progress_beta N =
      ((List.range (N + N)).map fun k : Nat =>
        ((k : ℚ) + 1) / ((N + N : Nat) : ℚ)) ++ [1] := by
  have hq : (N : ℚ) ≠ 0 := by
    have : (0 : ℚ) < (N : ℚ) := by exact_mod_cast hN
    exact ne_of_gt this
  rw [progress_beta, List.range_add, List.map_append, List.map_map,
    List.append_assoc]
  congr 1
  · apply List.map_congr_left
    intro k _
    push_cast
    ring
  congr 1
  · apply List.map_congr_left
    intro i _
    simp only [Function.comp]
    push_cast
    field_simp
    ring

/-- Progress in `main_beta.py` is monotonically non-decreasing. -/
lemma progress_beta_chain (N : Nat) (hN : 1 ≤ N) :
    List.Chain' (· ≤ ·) (progress_beta N) := by
  rw [progress_beta_eq N hN, List.chain'_iff_pairwise, List.pairwise_append]
  refine ⟨pairwise_one_div_range (N + N), by simp, ?_⟩
  intro x hx y hy
  rw [List.mem_singleton] at hy
  subst hy
  exact one_div_range_le_one (N + N) x hx

/-- The last progress value reported by `main_beta.py` is `1.0`. -/
lemma progress_beta_last (N : Nat) (hN : 1 ≤ N) :
    (progress_beta N).getLast? = some 1 := by
  rw [progress_beta_eq N hN]
  simp [List.getLast?_append]

/-- `main_beta.py` reports the value `1.0` twice: once by the final save
update and once by the completion log. -/
lemma progress_beta_count (N : Nat) (hN : 1 ≤ N) :
    List.count (1 : ℚ) (progress_beta N) = 2 := by
  rw [progress_beta_eq N hN, List.count_append,
    count_one_div_range (N + N) (by omega)]
  simp

/-- The last progress value reported by `main_v5.py` is `1.0`. -/
lemma progress_v5_last (N : Nat) : (progress_v5 N).getLast? = some 1 := by
  have h : progress_v5 N =
      ((0 : ℚ) :: (((List.range N).map fun k : Nat =>
        ((k : ℚ) + 1) / (N : ℚ)) ++ [4/5])) ++ [1] := by
    rw [progress_v5]
    simp
  rw [h, List.getLast?_concat]

/-- `main_v5.py` reports the value `1.0` twice: once at the end of the
generation loop and once after saving. -/
lemma progress_v5_count (N : Nat) (hN : 1 ≤ N) :
    List.count (1 : ℚ) (progress_v5 N) = 2 := by
  rw [progress_v5]
  rw [List.count_cons, List.count_append, count_one_div_range N hN]
  norm_num

/-- Claim C3, counterexample: on a 12-variation run, the progress
sequence of `main_v5.py` is not monotonically non-decreasing (it reaches
`1.0` at the end of the generation loop and then drops to `0.8` before
saving), and `1.0` is not reported exactly once. -/
theorem c3_counterexample_v5_progress :
    ¬ (List.Chain' (· ≤ ·) (progress_v5 12) ∧
       List.count (1 : ℚ) (progress_v5 12) = 1) := by
  rintro ⟨hchain, -⟩
  have hrange : List.range 12 = [0, 1, 2, 3, 4, 5, 6, 7, 8, 9, 10, 11] := rfl
  have hlist : progress_v5 12 = [0, 1/12, 2/12, 3/12, 4/12, 5/12, 6/12, 7/12,
      8/12, 9/12, 10/12, 11/12, 1, 4/5, 1] := by
    rw [progress_v5, hrange]
    norm_num
  rw [hlist] at hchain
  norm_num [List.chain'_cons] at hchain

/-- Claim C3, amended: within one successful run, the `main_beta.py`
progress sequence is monotonically non-decreasing and finishes at `1.0`,
but reports `1.0` twice rather than exactly once; the `main_v5.py`
sequence also finishes at `1.0` and reports it twice, and (per the
counterexample) is not monotone. -/
theorem c3_progress_report (N : Nat) (hN : 1 ≤ N) :
    List.Chain' (· ≤ ·) (progress_beta N) ∧
    (progress_beta N).getLast? = some 1 ∧
    List.count (1 : ℚ) (progress_beta N) = 2 ∧
    (progress_v5 N).getLast? = some 1 ∧
    List.count (1 : ℚ) (progress_v5 N) = 2 :=
  ⟨progress_beta_chain N hN, progress_beta_last N hN, progress_beta_count N hN,
   progress_v5_last N, progress_v5_count N hN⟩

/-- Witness for C3 at a 12-variation run. -/
theorem c3_progress_report_witness :
    List.Chain' (· ≤ ·) (progress_beta 12) ∧
    (progress_beta 12).getLast? = some 1 ∧
    List.count (1 : ℚ) (progress_beta 12) = 2 ∧
    (progress_v5 12).getLast? = some 1 ∧
    List.count (1 : ℚ) (progress_v5 12) = 2 :=
  c3_progress_report 12 (by decide)

/-- Claim C4: for every source buffer, every mask policy and every
pointwise RGB transform, the alpha channel of the produced variation is
byte-for-byte identical to the source alpha channel — in the `main_v5.py`
sweep body, in `process_rgba_image` of `main_v3.py` (for every
transparency mode), and in `_apply_color_variation` of `main_v4.py` (for
every mask configuration, including the channel scaling). -/
theorem c4_alpha_preserved :
    ∀ (transform : U8 × U8 × U8 → U8 × U8 × U8) (transparency_mode : Nat)
      (cfg : VariationConfig) (has_alpha : Bool) (sat_factor hue_rotation : ℚ)
      (img : List RGBA),
      (make_variation_rgba transform img).map (fun p => p.a) =
        img.map (fun p => p.a) ∧
      (process_rgba_image transform transparency_mode img).map (fun p => p.a) =
        img.map (fun p => p.a) ∧
      (apply_color_variation cfg has_alpha sat_factor hue_rotation img).map
          (fun p => p.a) =
        img.map (fun p => p.a) := by
  intro transform tmode cfg ha sf hr img
  refine ⟨?_, ?_, ?_⟩
  · rw [make_variation_rgba, List.map_map]
    apply List.map_congr_left
    intro p _
    rfl
  · rw [process_rgba_image, List.map_map]
    apply List.map_congr_left
    intro p _
    simp only [Function.comp_apply]
    split <;> rfl
  · rw [apply_color_variation, List.map_map]
    apply List.map_congr_left
    intro p _
    show (apply_color_variation_pixel cfg ha sf hr p).a = p.a
    rw [apply_color_variation_pixel]
    split <;> rfl

/-- Under the CLI ExactGray policy (`--skip-gray`, threshold 0, no
transparency gating) the processing mask is exactly the test
`max - min > 0`. -/
lemma exact_gray_mask (r_scale g_scale b_scale : ℚ) (has_alpha : Bool)
    (p : RGBA) :
    variation_mask (exact_gray_config r_scale g_scale b_scale) has_alpha p =
      decide (0 < gray_diff p) := by
  cases has_alpha <;> rfl

/-- Claim C5: under the ExactGray mask policy a pixel is excluded from
the color transform iff `max(R,G,B) = min(R,G,B)`, and every variation
leaves such a pixel (one with `R = G = B`) byte-for-byte unchanged. -/
theorem c5_exact_gray :
    (∀ (r_scale g_scale b_scale : ℚ) (has_alpha : Bool) (p : RGBA),
        variation_mask (exact_gray_config r_scale g_scale b_scale) has_alpha p
            = false ↔
          max p.r.val (max p.g.val p.b.val) =
            min p.r.val (min p.g.val p.b.val)) ∧
    (∀ (r_scale g_scale b_scale sat_factor hue_rotation : ℚ)
        (has_alpha : Bool) (img : List RGBA) (i : Nat) (p : RGBA),
        img[i]? = some p → p.r = p.g → p.g = p.b →
        (apply_color_variation (exact_gray_config r_scale g_scale b_scale)
          has_alpha sat_factor hue_rotation img)[i]? = some p) := by
  have hmask : ∀ (rs gs bs : ℚ) (ha : Bool) (p : RGBA),
      variation_mask (exact_gray_config rs gs bs) ha p = false ↔
        max p.r.val (max p.g.val p.b.val) =
          min p.r.val (min p.g.val p.b.val) := by
    intro rs gs bs ha p
    have hmm : min p.r.val (min p.g.val p.b.val) ≤
        max p.r.val (max p.g.val p.b.val) :=
      le_trans (min_le_left _ _) (le_max_left _ _)
    rw [exact_gray_mask, decide_eq_false_iff_not, Nat.not_lt, Nat.le_zero,
      gray_diff, Nat.sub_eq_zero_iff_le]
    exact ⟨fun h => le_antisymm h hmm, fun h => le_of_eq h⟩
  refine ⟨hmask, ?_⟩
  intro rs gs bs sf hr ha img i p hi hrg hgb
  have hm : variation_mask (exact_gray_config rs gs bs) ha p = false := by
    apply (hmask rs gs bs ha p).mpr
    rw [hrg, hgb]
    simp
  rw [apply_color_variation, List.getElem?_map, hi]
  simp [apply_color_variation_pixel, hm]

/-- Witness for C5: a gray pixel `(5,5,5,77)` survives a variation with
hue rotation 90 and saturation factor 1/2 unchanged. -/
theorem c5_exact_gray_witness :
    (([⟨5, 5, 5, 77⟩] : List RGBA)[0]? = some ⟨5, 5, 5, 77⟩) ∧
    (apply_color_variation (exact_gray_config 2 0 (1/2)) true (1/2) 90
      [⟨5, 5, 5, 77⟩])[0]? = some ⟨5, 5, 5, 77⟩ :=
  ⟨rfl, c5_exact_gray.2 2 0 (1/2) (1/2) 90 true [⟨5, 5, 5, 77⟩] 0
    ⟨5, 5, 5, 77⟩ rfl rfl rfl⟩

/-- Adjusting a channel with strength `1.0` returns it unchanged in
either mode. -/
lemma adjust_channel_one (mode : AdjustMode) (c : U8) :
    adjust_channel mode 1 c = c := by
  have hle : ((c.val : ℚ)) ≤ 255 := by
    have h2 : c.val ≤ 255 := by omega
    exact_mod_cast h2
  have hge : (0 : ℚ) ≤ ((c.val : ℚ)) := by positivity
  have hclip : clip255 ((c.val : ℚ)) = ((c.val : ℚ)) := by
    rw [clip255, min_eq_right hle, max_eq_right hge]
  have htr : u8_trunc ((c.val : ℚ)) = c := by
    rw [u8_trunc]
    apply Fin.ext
    show (⌊((c.val : ℚ))⌋.toNat % 256) = c.val
    rw [Int.floor_natCast, Int.toNat_natCast]
    exact Nat.mod_eq_of_lt c.isLt
  cases mode <;> simp [adjust_channel, hclip, htr]

/-- Claim C7: `adjust_image_rgb` with strengths `(1.0, 1.0, 1.0)` is the
identity transform in both the additive and the multiplicative mode: on
an RGBA buffer every output pixel equals the corresponding input pixel,
and on any buffer the output is its (untouched) RGBA conversion. -/
theorem c7_identity_strengths :
    ∀ (mode : AdjustMode) (image : PilImage),
      adjust_image_rgb image 1 1 1 mode = .ok (.rgba image.toRGBA) ∧
      ∀ ps : List RGBA, adjust_image_rgb (.rgba ps) 1 1 1 mode = .ok (.rgba ps) := by
  have key : ∀ (mode : AdjustMode) (image : PilImage),
      adjust_image_rgb image 1 1 1 mode = .ok (.rgba image.toRGBA) := by
    intro mode image
    have h1 : ¬ ¬ ((0 : ℚ) ≤ 1 ∧ (1 : ℚ) ≤ 2) := not_not_intro (by norm_num)
    rw [adjust_image_rgb, if_neg h1, if_neg h1, if_neg h1]
    refine congrArg Except.ok (congrArg PilImage.rgba ?_)
    refine Eq.trans (List.map_congr_left ?_) (List.map_id _)
    intro p _
    rw [adjust_channel_one, adjust_channel_one, adjust_channel_one]
    rfl
  intro mode image
  exact ⟨key mode image, fun ps => key mode (.rgba ps)⟩

/-- Claim C10: for valid strengths `adjust_image_rgb` always returns an
RGBA-mode image whose alpha channel is that of the RGBA conversion of the
input; an RGB input gains an opaque alpha of 255 on every pixel, so the
adjusted buffer fed into the sweep always has an alpha channel. -/
theorem c10_rgba_conversion (image : PilImage)
    (r_strength g_strength b_strength : ℚ) (mode : AdjustMode)
    (hr : 0 ≤ r_strength ∧ r_strength ≤ 2)
    (hg : 0 ≤ g_strength ∧ g_strength ≤ 2)
    (hb : 0 ≤ b_strength ∧ b_strength ≤ 2) :
    (∃ out : List RGBA,
        adjust_image_rgb image r_strength g_strength b_strength mode =
          .ok (.rgba out) ∧
        out.map (fun p => p.a) = image.toRGBA.map (fun p => p.a)) ∧
    (∀ result,
        adjust_image_rgb image r_strength g_strength b_strength mode =
          .ok result →
        result.isRgba = true) ∧
    (∀ ps, image = .rgb ps →
        image.toRGBA.map (fun p => p.a) =
          List.replicate ps.length (255 : U8)) := by
  have heq : adjust_image_rgb image r_strength g_strength b_strength mode =
      .ok (.rgba (image.toRGBA.map fun p =>
        (⟨adjust_channel mode r_strength p.r, adjust_channel mode g_strength p.g,
          adjust_channel mode b_strength p.b, p.a⟩ : RGBA))) := by
    rw [adjust_image_rgb, if_neg (not_not_intro hr), if_neg (not_not_intro hg),
      if_neg (not_not_intro hb)]
  refine ⟨⟨_, heq, ?_⟩, ?_, ?_⟩
  · rw [List.map_map]
    apply List.map_congr_left
    intro p _
    rfl
  · intro result hres
    rw [heq] at hres
    injection hres with h
    rw [← h]
    rfl
  · intro ps himg
    subst himg
    show (ps.map fun t => (⟨t.1, t.2.1, t.2.2, 255⟩ : RGBA)).map (fun p => p.a) =
      List.replicate ps.length (255 : U8)
    rw [List.map_map]
    exact List.map_const' ps (255 : U8)

/-- Witness for C10: a plain RGB one-pixel image under additive mode with
neutral strengths. -/
theorem c10_rgba_conversion_witness :
    (∃ out : List RGBA,
        adjust_image_rgb (.rgb [(1, 2, 3)]) 1 1 1 .additive = .ok (.rgba out) ∧
        out.map (fun p => p.a) =
          (PilImage.rgb [(1, 2, 3)]).toRGBA.map (fun p => p.a)) ∧
    (∀ result,
        adjust_image_rgb (.rgb [(1, 2, 3)]) 1 1 1 .additive = .ok result →
        result.isRgba = true) ∧
    (∀ ps, PilImage.rgb [(1, 2, 3)] = .rgb ps →
        (PilImage.rgb [(1, 2, 3)]).toRGBA.map (fun p => p.a) =
          List.replicate ps.length (255 : U8)) :=
  c10_rgba_conversion (.rgb [(1, 2, 3)]) 1 1 1 .additive
    ⟨by norm_num, by norm_num⟩ ⟨by norm_num, by norm_num⟩
    ⟨by norm_num, by norm_num⟩

end ColorVar
